import Mathlib

/-!
Verification of the hybrid retrieval and ranking pipeline of the AI-KM platform
backend (`backend/app/services/{rag,reranker,cache,terminology}.py`).

The Python code is shallowly embedded:
* Python floats are modelled as rationals (`ℚ`); all scores in scope are built
  from integer counts and reciprocals, and every claim is about orderings or
  exact formulas that are stable under this idealisation.
* Python strings are modelled as Lean `String`s; `str.lower()` is modelled as
  the ASCII lowering `Char.toLower` (the inputs in scope are ASCII + CJK, and
  CJK characters have no case).
* `dict` / `set` values are modelled as insertion-ordered association lists
  (CPython dicts are insertion-ordered; for sets only the underlying set of
  elements is observable through the code in scope, and it is modelled by an
  insertion-ordered duplicate-free list).
* module-level mutable globals become explicit state records that are threaded
  through the functions that read or write them.
-/

namespace KM

/-! ### Python string primitives -/

/-- Characters treated as whitespace by Python `str.split()` / `str.strip()`
(ASCII fragment). -/
def pyIsSpace (c : Char) : Bool :=
  c == ' ' || c == '\t' || c == '\n' || c == '\x0d' || c == '\x0b' || c == '\x0c'

/-- Python `str.lower()`, modelled as per-character ASCII lowering. -/
def pyLower (s : String) : String :=
  ⟨s.data.map Char.toLower⟩

/-- Helper for `pySplitWs`: accumulates the current word (reversed) while
scanning the character list. -/
def pySplitWsAux : List Char → List Char → List String
  | [], cur => if cur.isEmpty then [] else [⟨cur.reverse⟩]
  | c :: rest, cur =>
    if pyIsSpace c then
      if cur.isEmpty then pySplitWsAux rest []
      else ⟨cur.reverse⟩ :: pySplitWsAux rest []
    else pySplitWsAux rest (c :: cur)

/-- Python `str.split()` with no argument: splits on runs of whitespace and
never returns empty words. -/
def pySplitWs (s : String) : List String :=
  pySplitWsAux s.data []

/-- Python `" ".join(l)`. -/
def joinSp : List String → String
  | [] => ""
  | [x] => x
  | x :: xs => x ++ " " ++ joinSp xs

/-- Contiguous-sublist (infix) test on character lists. -/
def listInfix (needle : List Char) : List Char → Bool
  | [] => needle.isEmpty
  | c :: rest => needle.isPrefixOf (c :: rest) || listInfix needle rest

/-- Python `needle in haystack` substring test. -/
def pyContains (haystack needle : String) : Bool :=
  listInfix needle.data haystack.data

/-- Helper for `pyCount` on a non-empty pattern `p :: ps`: counts
non-overlapping occurrences scanning left to right, exactly like CPython
`str.count`.  The first argument is recursion fuel (one unit per scanned
character), kept structural so that the kernel can evaluate the function;
`pyCount` supplies enough fuel for the whole haystack. -/
def pyCountAux (p : Char) (ps : List Char) : Nat → List Char → Nat
  | 0, _ => 0
  | _, [] => 0
  | fuel + 1, c :: rest =>
    if (p :: ps).isPrefixOf (c :: rest) then
      1 + pyCountAux p ps fuel (rest.drop ps.length)
    else
      pyCountAux p ps fuel rest

/-- Python `haystack.count(needle)`: the number of non-overlapping occurrences
of `needle` in `haystack` (left-to-right greedy), with the CPython convention
`s.count("") = len(s) + 1`. -/
def pyCount (haystack needle : String) : Nat :=
  match needle.data with
  | [] => haystack.data.length + 1
  | p :: ps => pyCountAux p ps haystack.data.length haystack.data

/-! ### Lexical scorer (`rag.bm25_score`) -/

/-- Per-term weight accumulated by `bm25_score` for one query term against the
lowercased document: `count/(count+1) * len(term)` where `count` is the
number of occurrences (and `0` when the term is absent). -/
def termWeight (doc_lower term : String) : ℚ :=
  let count := pyCount doc_lower term
  (count : ℚ) / ((count : ℚ) + 1) * (term.length : ℚ)

/-- Embedding of `rag.bm25_score`: `query_terms = set(query.lower().split())`,
`doc_lower = document.lower()`, then for each term with a positive occurrence
count accumulate `count/(count+1) * len(term)`.  The set of query terms is
modelled by `List.dedup` of the split (only the underlying set is observable:
the accumulated rational sum is order-independent). -/
def bm25_score (query document : String) : ℚ :=
  let query_terms := (pySplitWs (pyLower query)).dedup
  let doc_lower := pyLower document
  query_terms.foldl
    (fun score term =>
      let count := pyCount doc_lower term
      if count > 0 then score + ((count : ℚ) / ((count : ℚ) + 1)) * (term.length : ℚ)
      else score)
    0

/-! ### Documents flowing through fusion and reranking

Python passes `dict` payloads between stages; the fields the code in scope
reads or writes are `id`, `content`, `score`, `rerank_fallback` and
`relevance_score` (the last two being absent, i.e. defaulted, until the
reranker writes them). -/

/-- Chunk payload record for the fusion / rerank stages. -/
structure Doc where
  id : String := ""
  content : String := ""
  score : ℚ := 0
  rerank_fallback : Bool := false
  relevance_score : Option ℚ := none
deriving DecidableEq, Repr

/-! ### Rank fusion engine (`rag.reciprocal_rank_fusion`)

`scores = defaultdict(float)` and `results_map = {}` are insertion-ordered
dicts, modelled as association lists: an update to an existing key keeps its
position, a new key is appended. -/

/-- Update of `scores[i] += v` on a `defaultdict(float)`. -/
def upsertScore : List (String × ℚ) → String → ℚ → List (String × ℚ)
  | [], i, v => [(i, v)]
  | (j, w) :: rest, i, v =>
    if j = i then (j, w + v) :: rest else (j, w) :: upsertScore rest i v

/-- Read of `scores[i]` on a `defaultdict(float)` (missing keys read as 0). -/
def lookupScore : List (String × ℚ) → String → ℚ
  | [], _ => 0
  | (j, w) :: rest, i => if j = i then w else lookupScore rest i

/-- Python dict assignment `m[i] = d` (overwrites, keeps insertion position). -/
def mapSet : List (String × Doc) → String → Doc → List (String × Doc)
  | [], i, d => [(i, d)]
  | (j, e) :: rest, i, d =>
    if j = i then (j, d) :: rest else (j, e) :: mapSet rest i d

/-- Python `if i not in m: m[i] = d`. -/
def mapSetIfAbsent (m : List (String × Doc)) (i : String) (d : Doc) :
    List (String × Doc) :=
  if (m.map Prod.fst).contains i then m else m ++ [(i, d)]

/-- Python dict read `m.get(i)`. -/
def mapFind : List (String × Doc) → String → Option Doc
  | [], _ => none
  | (j, e) :: rest, i => if j = i then some e else mapFind rest i

/-- Loop `for rank, result in enumerate(l): scores[id] += 1.0/(k + rank + 1)`,
started at rank `rank`. -/
def addRanksFrom (k : ℕ) : ℕ → List Doc → List (String × ℚ) → List (String × ℚ)
  | _, [], scores => scores
  | rank, d :: rest, scores =>
    addRanksFrom k (rank + 1) rest
      (upsertScore scores d.id (1 / ((k : ℚ) + (rank : ℚ) + 1)))

/-- Accumulated RRF score table after both enumeration loops of
`reciprocal_rank_fusion` (vector list first, then keyword list). -/
def rrfScores (vector_results keyword_results : List Doc) (k : ℕ) :
    List (String × ℚ) :=
  addRanksFrom k 0 keyword_results (addRanksFrom k 0 vector_results [])

/-- The `results_map` built by `reciprocal_rank_fusion`: vector results are
assigned unconditionally, keyword results only when the id is absent. -/
def buildResultsMap (vector_results keyword_results : List Doc) :
    List (String × Doc) :=
  keyword_results.foldl (fun m d => mapSetIfAbsent m d.id d)
    (vector_results.foldl (fun m d => mapSet m d.id d) [])

/-- Stable descending insertion: places `x` before the first element whose key
is not larger, so that earlier elements win ties (CPython `sorted` with
`reverse=True` is stable). -/
def insertDescBy {α : Type} (key : α → ℚ) (x : α) : List α → List α
  | [] => [x]
  | y :: ys => if key y ≤ key x then x :: y :: ys else y :: insertDescBy key x ys

/-- Stable sort, descending by `key`; agrees with CPython
`sorted(l, key=key, reverse=True)` because the stable descending order is
unique. -/
def sortDescBy {α : Type} (key : α → ℚ) (l : List α) : List α :=
  l.foldr (insertDescBy key) []

/-- Embedding of `rag.reciprocal_rank_fusion`: accumulate `1/(k+rank+1)` per
occurrence over both lists, sort the score-table keys by fused score
descending (stable), truncate to `top_k`, and read payloads back from
`results_map`. -/
def reciprocal_rank_fusion (vector_results keyword_results : List Doc)
    (top_k : ℕ := 5) (k : ℕ := 60) : List Doc :=
  let scores := rrfScores vector_results keyword_results k
  let results_map := buildResultsMap vector_results keyword_results
  let sorted_ids := sortDescBy (lookupScore scores) (scores.map Prod.fst)
  (sorted_ids.take top_k).filterMap (mapFind results_map)

/-- Formula of the specification for the fused score of candidate `j`
contributed by one input list: `1/(k + rank + 1)` when `j` appears in the
list at 0-based position `rank`, and `0` when it does not appear. -/
def rrfSpecContrib (k : ℕ) (l : List Doc) (j : String) : ℚ :=
  if j ∈ l.map Doc.id then
    1 / ((k : ℚ) + ((l.map Doc.id).indexOf j : ℚ) + 1)
  else 0

/-! ### Reranker service (`reranker.py`)

Module globals `_cohere_client` / `_reranker_enabled` become `RerankerState`;
the deployment environment (whether an API key is configured, whether client
construction succeeds) is a fixed `RerankerEnv`; the outcome of one outbound
`client.rerank` network call is a per-call `CohereOutcome` oracle. -/

/-- Process environment of the reranker singleton. -/
structure RerankerEnv where
  apiKeyPresent : Bool
  clientInitOk : Bool
deriving DecidableEq, Repr

/-- Mutable module state: `_cohere_client is not None` and
`_reranker_enabled`. -/
structure RerankerState where
  clientInited : Bool
  enabled : Bool
deriving DecidableEq, Repr

/-- Module state at import time: `_cohere_client = None`,
`_reranker_enabled = True`. -/
def initialRerankerState : RerankerState := { clientInited := false, enabled := true }

/-- Outcome of one call to the external Cohere rerank endpoint: a list of
`(index, relevance_score)` results, or one of the exception classes handled
by `rerank`. -/
inductive CohereOutcome where
  | success (results : List (ℕ × ℚ))
  | tooManyRequests
  | unauthorized
  | otherError
deriving DecidableEq, Repr

/-- Embedding of `reranker.get_cohere_client`: returns whether a client is
available together with the updated module state. -/
def get_cohere_client (env : RerankerEnv) (s : RerankerState) :
    Bool × RerankerState :=
  if !s.enabled then (false, s)
  else if s.clientInited then (true, s)
  else if !env.apiKeyPresent then (false, { s with enabled := false })
  else if env.clientInitOk then (true, { s with clientInited := true })
  else (false, { s with enabled := false })

/-- Embedding of `reranker.is_reranker_available`. -/
def is_reranker_available (env : RerankerEnv) (s : RerankerState) :
    Bool × RerankerState :=
  get_cohere_client env s

/-- Embedding of `reranker._fallback_with_warning`: flags every document as a
fallback result and copies its pre-rerank score into `relevance_score`. -/
def fallback_with_warning (documents : List Doc) : List Doc :=
  documents.map fun d =>
    { d with rerank_fallback := true, relevance_score := some d.score }

/-- Embedding of `reranker.rerank`.  Returns the result list, the updated
module state, and whether the external scoring service was contacted.  A
`success` outcome with an out-of-range index models the `IndexError` raised
while building the result list, which the final `except Exception` turns into
the fallback path. -/
def rerank (env : RerankerEnv) (outcome : CohereOutcome) (query : String)
    (documents : List Doc) (top_n : Option ℕ) (s : RerankerState) :
    List Doc × RerankerState × Bool :=
  if documents.isEmpty then ([], s, false)
  else
    match get_cohere_client env s with
    | (false, s') => (documents, s', false)
    | (true, s') =>
      match outcome with
      | .success results =>
        if results.all (fun r => r.1 < documents.length) then
          (results.filterMap (fun r =>
            (documents.get? r.1).map fun d =>
              { d with relevance_score := some r.2 }), s', true)
        else (fallback_with_warning documents, s', true)
      | .tooManyRequests => (fallback_with_warning documents, s', true)
      | .unauthorized =>
        (fallback_with_warning documents, { s' with enabled := false }, true)
      | .otherError => (fallback_with_warning documents, s', true)

/-- One externally observable operation on the reranker module. -/
inductive RerankerOp where
  | rerankCall (query : String) (documents : List Doc) (top_n : Option ℕ)
      (outcome : CohereOutcome)
  | availabilityCheck
deriving Repr

/-- State transition of one reranker operation, also reporting whether the
external service was contacted. -/
def stepRerankerOp (env : RerankerEnv) (s : RerankerState) :
    RerankerOp → RerankerState × Bool
  | .rerankCall q docs n oc =>
    let r := rerank env oc q docs n s
    (r.2.1, r.2.2)
  | .availabilityCheck => ((is_reranker_available env s).2, false)

/-- Run of a sequence of reranker operations: final state plus the per-step
contact flags. -/
def runRerankerOps (env : RerankerEnv) :
    RerankerState → List RerankerOp → RerankerState × List Bool
  | s, [] => (s, [])
  | s, op :: ops =>
    let (s', c) := stepRerankerOp env s op
    let (s'', cs) := runRerankerOps env s' ops
    (s'', c :: cs)

/-! ### Result cache (`cache.py`)

The Redis backend is modelled as an in-memory `CacheState`; the MD5 digest of
`hashlib` is an external library function, passed in as an oracle `md5hex`
(every claim in scope holds for an arbitrary digest function).  TTL expiry is
not modelled (no claim in scope depends on time). -/

/-- Python `str.strip()` (ASCII whitespace fragment). -/
def pyStrip (s : String) : String :=
  ⟨((s.data.dropWhile pyIsSpace).reverse.dropWhile pyIsSpace).reverse⟩

/-- Embedding of `cache.normalize_query`: collapse whitespace with
`" ".join(query.split())`, then `strip` (a no-op after the join) and
`lower`. -/
def normalize_query (query : String) : String :=
  pyLower (pyStrip (joinSp (pySplitWs query)))

/-- Embedding of `cache.generate_cache_key`:
`f"query:{h}:top_k:{top_k}"` with `h` the truncated digest of the normalized
query. -/
def generate_cache_key (md5hex : String → String) (query : String)
    (top_k : ℕ) : String :=
  "query:" ++ md5hex (normalize_query query) ++ ":top_k:" ++ Nat.repr top_k

/-! ### Terminology expander (`terminology.py`) -/

/-- Embedding of the `RAIL_TERMINOLOGY` synonym table (insertion order of the
Python dict literal). -/
def RAIL_TERMINOLOGY : List (String × List String) :=
  [ ("轉向架", ["bogie", "台車", "走行部", "轉向架總成"])
  , ("牽引馬達", ["traction motor", "驅動馬達", "電動機", "牽引電機"])
  , ("空氣彈簧", ["air spring", "空簧", "皮囊", "氣墊"])
  , ("軔缸", ["brake cylinder", "煞車缸", "制動缸"])
  , ("碟煞", ["disc brake", "碟式煞車", "碟煞盤"])
  , ("軸箱", ["axle box", "軸承箱"])
  , ("車輪", ["wheel", "輪對", "車輪組"])
  , ("齒輪箱", ["gear box", "減速箱", "齒輪傳動箱"])
  , ("連結器", ["coupler", "車鉤", "聯結器"])
  , ("密著式連結器", ["tight-lock coupler", "密連", "密著連結器"])
  , ("緩衝器", ["buffer", "緩衝橡皮", "緩衝裝置"])
  , ("煞車", ["brake", "制動", "軔機"])
  , ("閘瓦", ["brake shoe", "煞車片", "制動塊"])
  , ("踏面清潔裝置", ["tread cleaner", "踏面清潔器"])
  , ("空壓機", ["compressor", "壓縮機", "空氣壓縮機"])
  , ("司軔閥", ["driver's brake valve", "司機制動閥"])
  , ("MR", ["main reservoir", "主風缸", "總風缸"])
  , ("BP", ["brake pipe", "制動管", "列車管"])
  , ("集電弓", ["pantograph", "受電弓"])
  , ("主變壓器", ["main transformer", "主變"])
  , ("輔助電源", ["auxiliary power supply", "SIV", "靜態變流器"])
  , ("車身", ["car body", "車體", "車殼"])
  , ("中心銷", ["center pin", "中心盤", "回轉盤"])
  , ("牽引桿", ["traction link", "牽引裝置"])
  , ("拆卸", ["disassemble", "拆除", "分解", "卸下"])
  , ("組裝", ["assemble", "安裝", "裝配", "鎖固"])
  , ("檢修", ["inspection", "維修", "檢查", "保養"])
  , ("量測", ["measure", "測量", "量測"])
  , ("更新", ["replace", "更換", "換新"])
  , ("敲診", ["tap test", "敲擊測試", "敲打檢查"])
  , ("套筒", ["socket", "套筒扳手"])
  , ("梅開板手", ["open-end wrench", "開口扳手"])
  , ("空氣槍", ["air gun", "氣動扳手", "風動扳手"])
  , ("扭力值", ["torque", "扭矩", "鎖緊力矩"]) ]

/-- Python `set.add`, determinised to insertion order: a duplicate is dropped,
a new element is appended. -/
def setAdd (acc : List String) (x : String) : List String :=
  if x ∈ acc then acc else acc ++ [x]

/-- Python `set.update`. -/
def setUpdate (acc : List String) (xs : List String) : List String :=
  xs.foldl setAdd acc

/-- One iteration of the `for term, synonyms in RAIL_TERMINOLOGY.items()` loop
of `expand_query`: a case-sensitive hit on the canonical term adds all
synonyms; a case-insensitive hit on any synonym additionally adds the
canonical term and all synonyms (the `break` only stops redundant
re-insertion). -/
def expandStep (query : String) (acc : List String)
    (entry : String × List String) : List String :=
  let acc' := if pyContains query entry.1 then setUpdate acc entry.2 else acc
  match entry.2.find? (fun syn => pyContains (pyLower query) (pyLower syn)) with
  | some _ => setUpdate (setAdd acc' entry.1) entry.2
  | none => acc'

/-- Set of terms accumulated by `terminology.expand_query` (insertion-ordered,
starting from `{query}`). -/
def expandTerms (query : String) : List String :=
  RAIL_TERMINOLOGY.foldl (expandStep query) [query]

/-- Embedding of `terminology.expand_query`: the accumulated term set joined
with single spaces (Python joins a hash-ordered set; the embedding
determinises to insertion order — every claim in scope depends only on the
underlying term set or on substring containment of single terms). -/
def expand_query (query : String) : String :=
  joinSp (expandTerms query)

/-! ### Retrieval orchestrator (`rag.search`)

The external collaborators (embedding service, vector index, file storage)
are oracles fixed in `SearchEnv`; the cache is explicit state.  `use_hybrid`
and `use_rerank` only select which pipeline fills the text-channel candidate
list and are absorbed into the `textHits` oracle; neither pipeline touches
the cache (verified by inspection of `hybrid_search`). -/

/-- Mirror of `schemas.ChunkType`. -/
inductive ChunkType where
  | text
  | image
deriving DecidableEq, Repr

/-- Mirror of `schemas.SearchResult`. -/
structure SearchResult where
  id : String
  content : String
  doc_type : ChunkType
  document_id : String
  document_name : String
  score : ℚ
  image_base64 : Option String := none
  file_url : Option String := none
deriving DecidableEq, Repr

/-- State of the result cache backend, including the in-memory hit/miss
counters of `cache.py`; `enabled` models `_cache_enabled` combined with
backend reachability. -/
structure CacheState where
  entries : List (String × List SearchResult) := []
  hitCounts : List (String × ℕ) := []
  hits : ℕ := 0
  misses : ℕ := 0
  enabled : Bool := true
deriving Repr

/-- Lookup in the cache key-value store. -/
def cacheLookup : List (String × List SearchResult) → String →
    Option (List SearchResult)
  | [], _ => none
  | (j, v) :: rest, i => if j = i then some v else cacheLookup rest i

/-- Overwriting store (`setex`) in the cache key-value store. -/
def cacheStore : List (String × List SearchResult) → String →
    List SearchResult → List (String × List SearchResult)
  | [], i, v => [(i, v)]
  | (j, w) :: rest, i, v =>
    if j = i then (j, v) :: rest else (j, w) :: cacheStore rest i v

/-- Redis `hincrby meta hit_count 1` (creates the counter at 1 when absent). -/
def bumpHitCount : List (String × ℕ) → String → List (String × ℕ)
  | [], i => [(i, 1)]
  | (j, n) :: rest, i =>
    if j = i then (j, n + 1) :: rest else (j, n) :: bumpHitCount rest i

/-- Redis `hset meta hit_count 0` done by `set_cached_results`. -/
def resetHitCount : List (String × ℕ) → String → List (String × ℕ)
  | [], i => [(i, 0)]
  | (j, n) :: rest, i =>
    if j = i then (j, 0) :: rest else (j, n) :: resetHitCount rest i

/-- Embedding of `cache.get_cached_results`: `None` when the backend is
unavailable or the key is absent (counting a miss), otherwise the cached
result list (counting a hit and bumping the entry's hit counter). -/
def get_cached_results (md5hex : String → String) (query : String) (top_k : ℕ)
    (cs : CacheState) : Option (List SearchResult) × CacheState :=
  if !cs.enabled then (none, cs)
  else
    let key := generate_cache_key md5hex query top_k
    match cacheLookup cs.entries key with
    | some v =>
      (some v, { cs with hits := cs.hits + 1,
                         hitCounts := bumpHitCount cs.hitCounts key })
    | none => (none, { cs with misses := cs.misses + 1 })

/-- Embedding of `cache.set_cached_results` (TTL not modelled): stores the
results under the generated key and resets the entry's hit counter. -/
def set_cached_results (md5hex : String → String) (query : String) (top_k : ℕ)
    (results : List SearchResult) (cs : CacheState) : Bool × CacheState :=
  if !cs.enabled then (false, cs)
  else
    let key := generate_cache_key md5hex query top_k
    (true, { cs with entries := cacheStore cs.entries key results,
                     hitCounts := resetHitCount cs.hitCounts key })

/-- Text-channel candidate as returned by `hybrid_search` / `search_text`:
`score` is read with `r.get("score", 0.0)`. -/
structure TextHit where
  id : String
  content : String
  document_id : String
  document_name : String
  score : Option ℚ := none
deriving Repr

/-- Image-channel candidate as returned by `search_images`: `description` and
`image_base64` are read with defaulting `get`. -/
structure ImageHit where
  id : String
  document_id : String
  document_name : String
  score : ℚ
  description : Option String := none
  image_base64 : Option String := none
deriving Repr

/-- Environment of one `search` call: digest oracle, channel outcomes (`none`
models a raised exception for the channels wrapped in `try/except pass`) and
the file-storage existence oracle. -/
structure SearchEnv where
  md5hex : String → String
  textHits : List TextHit
  imageByTextHits : Option (List ImageHit)
  imageByImageHits : Option (List ImageHit)
  fileExists : String → Bool

/-- File preview URL annotation of `rag.search`. -/
def fileUrlFor (env : SearchEnv) (doc_id : String) : Option String :=
  if env.fileExists doc_id then
    some ("/api/kb/documents/" ++ doc_id ++ "/file")
  else none

/-- Conversion of a text hit into a `SearchResult` (`rag.search`, text loop). -/
def textToResult (env : SearchEnv) (r : TextHit) : SearchResult :=
  { id := r.id, content := r.content, doc_type := .text,
    document_id := r.document_id, document_name := r.document_name,
    score := r.score.getD 0, file_url := fileUrlFor env r.document_id }

/-- Conversion of an image hit into a `SearchResult` (`rag.search`, image
loops). -/
def imageToResult (env : SearchEnv) (r : ImageHit) : SearchResult :=
  { id := r.id, content := r.description.getD "Image", doc_type := .image,
    document_id := r.document_id, document_name := r.document_name,
    score := r.score, image_base64 := r.image_base64,
    file_url := fileUrlFor env r.document_id }

/-- Cache-free body of `rag.search`: text channel, image-by-text channel,
image-by-image channel with de-duplication by id, then sort by score
descending (stable) and truncate. -/
def searchCompute (env : SearchEnv) (query : String)
    (image_base64 : Option String) (top_k : ℕ) : List SearchResult :=
  let results₁ : List SearchResult :=
    if query ≠ "" then env.textHits.map (textToResult env) else []
  let results₂ : List SearchResult :=
    if query ≠ "" then
      match env.imageByTextHits with
      | some hits => results₁ ++ hits.map (imageToResult env)
      | none => results₁
    else results₁
  let results₃ : List SearchResult :=
    match image_base64 with
    | some _ =>
      match env.imageByImageHits with
      | some hits =>
        hits.foldl (fun acc r =>
          if acc.any (fun res => res.id == r.id) then acc
          else acc ++ [imageToResult env r]) results₂
      | none => results₂
    | none => results₂
  (sortDescBy SearchResult.score results₃).take top_k

/-- One cache interaction performed by the orchestrator. -/
inductive CacheOp where
  | read (key : String)
  | write (key : String)
deriving DecidableEq, Repr

/-- Embedding of `rag.search`: cache read only for non-empty pure-text queries
with caching enabled (early return on hit), full computation otherwise, and a
write-through under the same pure-text condition on a miss.  Returns the
results, the updated cache state, and the trace of cache interactions. -/
def search (env : SearchEnv) (query : String) (image_base64 : Option String)
    (top_k : ℕ) (use_cache : Bool) (cs : CacheState) :
    List SearchResult × CacheState × List CacheOp :=
  if query ≠ "" ∧ use_cache = true ∧ image_base64 = none then
    let key := generate_cache_key env.md5hex query top_k
    match get_cached_results env.md5hex query top_k cs with
    | (some cached, cs') => (cached, cs', [.read key])
    | (none, cs') =>
      let final := searchCompute env query image_base64 top_k
      let (_, cs'') := set_cached_results env.md5hex query top_k final cs'
      (final, cs'', [.read key, .write key])
  else
    (searchCompute env query image_base64 top_k, cs, [])

/-! ### Auxiliary specification-side definitions -/

/-- Specification-side per-list RRF contribution accumulated by the
`enumerate` loop starting at rank `rank`: one `1/(k+rank+1)` summand per
occurrence of the candidate id. -/
def sumRanks (k : ℕ) : ℕ → List Doc → String → ℚ
  | _, [], _ => 0
  | rank, d :: rest, j =>
    (if d.id = j then 1 / ((k : ℚ) + (rank : ℚ) + 1) else 0) +
      sumRanks k (rank + 1) rest j

/-- Numeric value of a decimal digit character. -/
def digitVal (c : Char) : ℕ := c.toNat - 48

/-- Decimal value of a most-significant-first digit string. -/
def evalDigits (l : List Char) : ℕ :=
  l.foldl (fun a c => 10 * a + digitVal c) 0

/-! ### Concrete fixtures used by witnesses and counterexamples -/

/-- Candidate chunk `a` of the RRF acceptance test. -/
def docA : Doc := { id := "a" }

/-- Candidate chunk `b` of the RRF acceptance test. -/
def docB : Doc := { id := "b" }

/-- Candidate chunk `c` of the RRF acceptance test. -/
def docC : Doc := { id := "c" }

/-- Candidate chunk `d` of the RRF acceptance test. -/
def docD : Doc := { id := "d" }

/-- Vector-channel list `A = [a, b, c]` of the RRF acceptance test. -/
def vecListA : List Doc := [docA, docB, docC]

/-- Keyword-channel list `B = [c, a, d]` of the RRF acceptance test. -/
def kwListB : List Doc := [docC, docA, docD]

/-- First concrete rerank candidate. -/
def docOne : Doc := { id := "1", content := "c1", score := 1 }

/-- Second concrete rerank candidate. -/
def docTwo : Doc := { id := "2", content := "c2", score := 0 }

/-- Environment in which an API key is configured and client construction
succeeds. -/
def envBoth : RerankerEnv := { apiKeyPresent := true, clientInitOk := true }

/-- Reranker module state after a permanent disable. -/
def disabledState : RerankerState := { clientInited := false, enabled := false }

/-! ## Lemmas and theorems -/

/-- A disabled reranker state makes `get_cohere_client` return no client and
leave the state unchanged. -/
lemma get_cohere_client_of_disabled (env : RerankerEnv) {s : RerankerState}
    (hdis : s.enabled = false) : get_cohere_client env s = (false, s) := by
  simp [get_cohere_client, hdis]

/-- A disabled reranker passes the candidate list through unchanged, keeps its
state, and does not contact the service. -/
lemma rerank_of_disabled (env : RerankerEnv) (outcome : CohereOutcome)
    (query : String) (documents : List Doc) (top_n : Option ℕ)
    {s : RerankerState} (hdis : s.enabled = false) :
    rerank env outcome query documents top_n s = (documents, s, false) := by
  unfold rerank
  rcases hd : documents with _ | ⟨d, rest⟩
  · simp
  · rw [get_cohere_client_of_disabled env hdis]
    simp

/-- A disabled reranker state is a fixpoint of every single operation, with no
service contact. -/
lemma stepRerankerOp_of_disabled (env : RerankerEnv) {s : RerankerState}
    (hdis : s.enabled = false) (op : RerankerOp) :
    stepRerankerOp env s op = (s, false) := by
  cases op with
  | rerankCall q docs n oc =>
    simp [stepRerankerOp, rerank_of_disabled env oc q docs n hdis]
  | availabilityCheck =>
    simp [stepRerankerOp, is_reranker_available,
      get_cohere_client_of_disabled env hdis]

/-- C10: for every query string, `top_n` and environment, `rerank` called with
an empty candidate list returns the empty list immediately, without contacting
the external scoring service and without changing any module state. -/
theorem rerank_empty_returns_empty (env : RerankerEnv)
    (outcome : CohereOutcome) (query : String) (top_n : Option ℕ)
    (s : RerankerState) :
    rerank env outcome query [] top_n s = ([], s, false) := rfl

/-- C2 counterexample: in the disabled state, `rerank(query, [d1, d2], 1)`
returns both candidates (not `candidates[:1]`) and flags none of them as a
fallback result, contradicting the claimed truncation and flagging. -/
theorem rerank_disabled_claim_counterexample :
    (rerank envBoth (.success []) "q" [docOne, docTwo] (some 1)
        disabledState).1 = [docOne, docTwo] ∧
    (rerank envBoth (.success []) "q" [docOne, docTwo] (some 1)
        disabledState).1 ≠ fallback_with_warning ([docOne, docTwo].take 1) ∧
    ((rerank envBoth (.success []) "q" [docOne, docTwo] (some 1)
        disabledState).1.all fun d => d.rerank_fallback == false) = true := by
  decide

/-- C2 (amended): when the reranker is disabled, `rerank(query, candidates,
n)` returns the whole candidate list unchanged in order and content — without
truncating to `n` and without fallback flags — leaving the state unchanged
and skipping the service. -/
theorem rerank_disabled_passthrough (env : RerankerEnv)
    (outcome : CohereOutcome) (query : String) (documents : List Doc)
    (top_n : Option ℕ) (s : RerankerState) (hdis : s.enabled = false) :
    rerank env outcome query documents top_n s = (documents, s, false) :=
  rerank_of_disabled env outcome query documents top_n hdis

/-- Witness for the amended C2 at a concrete disabled state and candidate
list. -/
theorem rerank_disabled_passthrough_witness :
    disabledState.enabled = false ∧
    rerank envBoth .otherError "q" [docOne] none disabledState
      = ([docOne], disabledState, false) :=
  ⟨rfl, rerank_disabled_passthrough envBoth .otherError "q" [docOne] none
    disabledState rfl⟩

/-- C3: an authentication failure raised by a contacted scoring service turns
the availability flag off, and from any disabled state every sequence of
reranker operations leaves the state disabled and never contacts the service
again. -/
theorem reranker_auth_failure_permanent :
    (∀ (env : RerankerEnv) (query : String) (documents : List Doc)
        (top_n : Option ℕ) (s : RerankerState),
      (rerank env .unauthorized query documents top_n s).2.2 = true →
      (rerank env .unauthorized query documents top_n s).2.1.enabled = false) ∧
    (∀ (env : RerankerEnv) (s : RerankerState) (ops : List RerankerOp),
      s.enabled = false →
      runRerankerOps env s ops = (s, List.replicate ops.length false)) := by
  constructor
  · intro env query documents top_n s hc
    unfold rerank at hc ⊢
    rcases documents with _ | ⟨d, rest⟩
    · simp at hc
    · rcases hg : get_cohere_client env s with ⟨avail, s'⟩
      cases avail
      · simp [hg] at hc
      · simp
  · intro env s ops hdis
    induction ops with
    | nil => simp [runRerankerOps]
    | cons op rest ih =>
      simp [runRerankerOps, stepRerankerOp_of_disabled env hdis op, ih,
        List.replicate_succ]

/-- Witness for C3: a concrete authentication failure disables the state, and
a concrete operation sequence from the disabled state never contacts the
service. -/
theorem reranker_auth_failure_permanent_witness :
    ((rerank envBoth .unauthorized "q" [docOne] none
        initialRerankerState).2.2 = true ∧
     (rerank envBoth .unauthorized "q" [docOne] none
        initialRerankerState).2.1.enabled = false) ∧
    (disabledState.enabled = false ∧
     runRerankerOps envBoth disabledState
        [RerankerOp.availabilityCheck,
         RerankerOp.rerankCall "q" [docOne] none (.success [(0, 1)])]
       = (disabledState, List.replicate 2 false)) :=
  ⟨⟨by decide,
    reranker_auth_failure_permanent.1 envBoth "q" [docOne] none
      initialRerankerState (by decide)⟩,
   ⟨rfl,
    reranker_auth_failure_permanent.2 envBoth disabledState
      [RerankerOp.availabilityCheck,
       RerankerOp.rerankCall "q" [docOne] none (.success [(0, 1)])] rfl⟩⟩

/-- C9: whenever an image payload is present, `search` performs no cache
operation at all and leaves the cache state unchanged; the result is the pure
computation. -/
theorem search_with_image_bypasses_cache (env : SearchEnv) (query : String)
    (img : String) (top_k : ℕ) (use_cache : Bool) (cs : CacheState) :
    search env query (some img) top_k use_cache cs
      = (searchCompute env query (some img) top_k, cs, []) := by
  simp [search]

/-- Folding the guarded accumulation of `bm25_score` adds exactly one
`termWeight` summand per term. -/
lemma bm25_fold (dl : String) : ∀ (l : List String) (c : ℚ),
    l.foldl
      (fun score term =>
        if pyCount dl term > 0 then
          score + ((pyCount dl term : ℚ) / ((pyCount dl term : ℚ) + 1))
            * (term.length : ℚ)
        else score) c
      = c + (l.map (termWeight dl)).sum := by
  intro l
  induction l with
  | nil => intro c; simp
  | cons t rest ih =>
    intro c
    simp only [List.foldl_cons, List.map_cons, List.sum_cons]
    rw [ih]
    by_cases h : pyCount dl t > 0
    · simp only [h, if_pos, termWeight]
      ring
    · have h0 : pyCount dl t = 0 := by omega
      simp only [h, if_neg, termWeight, h0]
      push_cast
      ring

/-- Sum over the `Finset` of a list equals the sum over its insertion-ordered
deduplication. -/
lemma sum_toFinset_dedup (l : List String) (f : String → ℚ) :
    ∑ t ∈ l.toFinset, f t = (l.dedup.map f).sum := by
  rw [Finset.sum_eq_multiset_sum, List.toFinset_val]
  simp

/-- The lexical score equals the set-indexed sum of the per-term weights. -/
lemma bm25_score_eq_sum (query document : String) :
    bm25_score query document =
      ∑ t ∈ (pySplitWs (pyLower query)).toFinset,
        termWeight (pyLower document) t := by
  simp only [bm25_score]
  rw [bm25_fold, zero_add, sum_toFinset_dedup]

/-- Saturating weight `c/(c+1)` is monotone, hence so is the per-term
weight. -/
lemma termWeight_mono (dl1 dl2 t : String)
    (h : pyCount dl2 t ≤ pyCount dl1 t) :
    termWeight dl2 t ≤ termWeight dl1 t := by
  unfold termWeight
  apply mul_le_mul_of_nonneg_right _ (by positivity)
  rw [div_le_div_iff₀ (by positivity) (by positivity)]
  have hq : (pyCount dl2 t : ℚ) ≤ (pyCount dl1 t : ℚ) := by exact_mod_cast h
  nlinarith [hq]

/-- C5: the lexical score is the sum, over the set of distinct lowercase
whitespace-delimited query terms, of `count/(count+1) * len(term)` with
`count` the occurrence count of the term in the lowercased document; a term
with zero occurrences contributes exactly zero. -/
theorem bm25_score_setwise_sum (query document : String) :
    (bm25_score query document =
      ∑ t ∈ (pySplitWs (pyLower query)).toFinset,
        (pyCount (pyLower document) t : ℚ)
          / ((pyCount (pyLower document) t : ℚ) + 1) * (t.length : ℚ)) ∧
    (∀ t : String, pyCount (pyLower document) t = 0 →
      (pyCount (pyLower document) t : ℚ)
        / ((pyCount (pyLower document) t : ℚ) + 1) * (t.length : ℚ) = 0) := by
  constructor
  · rw [bm25_score_eq_sum]
    rfl
  · intro t h0
    rw [h0]
    norm_num

/-- Witness for C5: a concrete term absent from the document contributes
zero. -/
theorem bm25_score_setwise_sum_witness :
    pyCount (pyLower "xyz") "ab" = 0 ∧
    (pyCount (pyLower "xyz") "ab" : ℚ)
      / ((pyCount (pyLower "xyz") "ab" : ℚ) + 1) * (("ab" : String).length : ℚ)
      = 0 :=
  ⟨by decide, (bm25_score_setwise_sum "ab" "xyz").2 "ab" (by decide)⟩

/-- C6: the per-term weight is monotone non-decreasing in the occurrence
count, and a document containing a query term 5 times (all other term counts
equal) scores at least as high as one containing it once. -/
theorem bm25_score_monotone :
    (∀ (dl1 dl2 t : String), pyCount dl2 t ≤ pyCount dl1 t →
        termWeight dl2 t ≤ termWeight dl1 t) ∧
    (∀ (query doc1 doc2 t : String),
        t ∈ pySplitWs (pyLower query) →
        pyCount (pyLower doc1) t = 5 →
        pyCount (pyLower doc2) t = 1 →
        (∀ t' ∈ pySplitWs (pyLower query), t' ≠ t →
          pyCount (pyLower doc1) t' = pyCount (pyLower doc2) t') →
        bm25_score query doc2 ≤ bm25_score query doc1) := by
  constructor
  · exact termWeight_mono
  · intro query doc1 doc2 t _ h5 h1 hother
    rw [bm25_score_eq_sum, bm25_score_eq_sum]
    apply Finset.sum_le_sum
    intro t' ht'
    by_cases he : t' = t
    · subst he
      exact termWeight_mono _ _ _ (by rw [h5, h1]; omega)
    · have := hother t' (List.mem_toFinset.mp ht') he
      unfold termWeight
      rw [this]

/-- Witness for C6: document `"ab ab ab ab ab"` (5 occurrences of the single
query term) scores at least document `"ab"` (1 occurrence). -/
theorem bm25_score_monotone_witness :
    pyCount (pyLower "ab ab ab ab ab") "ab" = 5 ∧
    pyCount (pyLower "ab") "ab" = 1 ∧
    bm25_score "ab" "ab" ≤ bm25_score "ab" "ab ab ab ab ab" :=
  ⟨by decide, by decide,
    bm25_score_monotone.2 "ab" "ab ab ab ab ab" "ab" "ab" (by decide)
      (by decide) (by decide) (by decide)⟩

/-- Accumulator independence of the digit-printing loop of `Nat.repr`. -/
lemma toDigitsCore_acc (fuel : ℕ) : ∀ (n : ℕ) (acc : List Char),
    Nat.toDigitsCore 10 fuel n acc = Nat.toDigitsCore 10 fuel n [] ++ acc := by
  induction fuel with
  | zero => intro n acc; simp [Nat.toDigitsCore]
  | succ f ih =>
    intro n acc
    simp only [Nat.toDigitsCore]
    by_cases h : n / 10 = 0
    · simp [h]
    · simp only [h, if_neg, ite_false]
      rw [ih (n / 10) [Nat.digitChar (n % 10)],
        ih (n / 10) (Nat.digitChar (n % 10) :: acc)]
      simp

/-- Fuel independence of the digit-printing loop, for sufficient fuel. -/
lemma toDigitsCore_fuel : ∀ (n fuel : ℕ), n < fuel →
    Nat.toDigitsCore 10 fuel n [] = Nat.toDigits 10 n := by
  intro n
  induction n using Nat.strong_induction_on with
  | _ n ih =>
    intro fuel hfuel
    obtain ⟨f, rfl⟩ : ∃ f, fuel = f + 1 := ⟨fuel - 1, by omega⟩
    unfold Nat.toDigits
    by_cases h : n / 10 = 0
    · simp [Nat.toDigitsCore, h]
    · have hn : 0 < n := by
        rcases Nat.eq_zero_or_pos n with h0 | h0
        · exact absurd (by simp [h0]) h
        · exact h0
      have hdiv : n / 10 < n := Nat.div_lt_self hn (by norm_num)
      simp only [Nat.toDigitsCore, h, if_neg, ite_false]
      rw [toDigitsCore_acc, toDigitsCore_acc n,
        ih (n / 10) hdiv f (by omega), ih (n / 10) hdiv n (by omega)]

/-- Recursion equation of `Nat.toDigits` for numbers of two or more digits. -/
lemma toDigits_step (n : ℕ) (h : n / 10 ≠ 0) :
    Nat.toDigits 10 n
      = Nat.toDigits 10 (n / 10) ++ [Nat.digitChar (n % 10)] := by
  have hn : 0 < n := by
    rcases Nat.eq_zero_or_pos n with h0 | h0
    · exact absurd (by simp [h0]) h
    · exact h0
  have hdiv : n / 10 < n := Nat.div_lt_self hn (by norm_num)
  conv_lhs => unfold Nat.toDigits
  simp only [Nat.toDigitsCore, h, if_neg, ite_false]
  rw [toDigitsCore_acc, toDigitsCore_fuel (n / 10) n hdiv]

/-- Single-digit case of `Nat.toDigits`. -/
lemma toDigits_small (n : ℕ) (h : n / 10 = 0) :
    Nat.toDigits 10 n = [Nat.digitChar (n % 10)] := by
  unfold Nat.toDigits
  simp [Nat.toDigitsCore, h]

/-- Digit characters evaluate back to their digit. -/
lemma digitVal_digitChar (n : ℕ) (h : n < 10) :
    digitVal (Nat.digitChar n) = n := by
  interval_cases n <;> rfl

/-- Decimal printing round-trips through `evalDigits`. -/
lemma evalDigits_toDigits : ∀ n : ℕ, evalDigits (Nat.toDigits 10 n) = n := by
  intro n
  induction n using Nat.strong_induction_on with
  | _ n ih =>
    by_cases h : n / 10 = 0
    · have hlt : n < 10 := by omega
      rw [toDigits_small n h]
      simp [evalDigits, digitVal_digitChar (n % 10) (Nat.mod_lt n (by norm_num))]
      omega
    · have hn : 0 < n := by
        rcases Nat.eq_zero_or_pos n with h0 | h0
        · exact absurd (by simp [h0]) h
        · exact h0
      have hdiv : n / 10 < n := Nat.div_lt_self hn (by norm_num)
      rw [toDigits_step n h]
      simp only [evalDigits, List.foldl_append] at *
      rw [ih (n / 10) hdiv]
      simp [digitVal_digitChar (n % 10) (Nat.mod_lt n (by norm_num))]
      omega

/-- Decimal printing of naturals is injective. -/
lemma natRepr_injective {m n : ℕ} (h : Nat.repr m = Nat.repr n) : m = n := by
  have hdata : Nat.toDigits 10 m = Nat.toDigits 10 n := congrArg String.data h
  have := congrArg evalDigits hdata
  rwa [evalDigits_toDigits, evalDigits_toDigits] at this

/-- C4: the cache key is a function of `(normalize(query), top_k)` — the two
claimed whitespace/case variants normalize identically and hence share a key
for equal `top_k` — and for a fixed query distinct `top_k` values always
produce distinct keys, for every digest function. -/
theorem cache_key_normalization :
    (normalize_query "  Hello   World " = normalize_query "hello world") ∧
    (∀ (md5hex : String → String) (q1 q2 : String) (top_k : ℕ),
      normalize_query q1 = normalize_query q2 →
      generate_cache_key md5hex q1 top_k = generate_cache_key md5hex q2 top_k) ∧
    (∀ (md5hex : String → String) (q : String) (k1 k2 : ℕ), k1 ≠ k2 →
      generate_cache_key md5hex q k1 ≠ generate_cache_key md5hex q k2) := by
  refine ⟨by decide, ?_, ?_⟩
  · intro md5hex q1 q2 top_k hnorm
    unfold generate_cache_key
    rw [hnorm]
  · intro md5hex q k1 k2 hne heq
    apply hne
    apply natRepr_injective
    unfold generate_cache_key at heq
    have hdata := congrArg String.data heq
    simp only [String.data_append, List.append_assoc,
      List.append_cancel_left_eq] at hdata
    exact String.ext hdata

/-- Witness for C4 at a concrete digest function, query and `top_k`
values. -/
theorem cache_key_normalization_witness :
    generate_cache_key (fun s => s) "  Hello   World " 3
      = generate_cache_key (fun s => s) "hello world" 3 ∧
    generate_cache_key (fun s => s) "a" 1
      ≠ generate_cache_key (fun s => s) "a" 2 :=
  ⟨cache_key_normalization.2.1 (fun s => s) "  Hello   World " "hello world" 3
      (by decide),
   cache_key_normalization.2.2 (fun s => s) "a" 1 2 (by decide)⟩

/-- Reading a score after an upsert adds the upserted value exactly at the
upserted key. -/
lemma lookup_upsert (sc : List (String × ℚ)) (i j : String) (v : ℚ) :
    lookupScore (upsertScore sc i v) j
      = lookupScore sc j + if i = j then v else 0 := by
  induction sc with
  | nil => by_cases h : i = j <;> simp [upsertScore, lookupScore, h]
  | cons hd tl ih =>
    obtain ⟨a, w⟩ := hd
    by_cases hai : a = i
    · subst hai
      by_cases haj : a = j
      · subst haj
        simp [upsertScore, lookupScore]
      · simp [upsertScore, lookupScore, haj]
    · by_cases haj : a = j
      · subst haj
        have hia : ¬(i = a) := fun hh => hai hh.symm
        simp [upsertScore, lookupScore, hai, hia]
      · simp [upsertScore, lookupScore, hai, haj, ih]

/-- Reading a score after one enumeration loop adds one summand per
occurrence. -/
lemma lookup_addRanksFrom (k : ℕ) : ∀ (l : List Doc) (rank : ℕ)
    (sc : List (String × ℚ)) (j : String),
    lookupScore (addRanksFrom k rank l sc) j
      = lookupScore sc j + sumRanks k rank l j := by
  intro l
  induction l with
  | nil => intro rank sc j; simp [addRanksFrom, sumRanks]
  | cons d rest ih =>
    intro rank sc j
    simp only [addRanksFrom, sumRanks]
    rw [ih, lookup_upsert]
    by_cases h : d.id = j <;> simp [h] <;> ring

/-- Candidates absent from a list receive no contribution from it. -/
lemma sumRanks_absent (k : ℕ) : ∀ (l : List Doc) (rank : ℕ) (j : String),
    j ∉ l.map Doc.id → sumRanks k rank l j = 0 := by
  intro l
  induction l with
  | nil => intro rank j _; simp [sumRanks]
  | cons d rest ih =>
    intro rank j hj
    simp only [List.map_cons, List.mem_cons, not_or] at hj
    have hne : ¬(d.id = j) := fun hh => hj.1 hh.symm
    simp [sumRanks, hne, ih rank.succ j hj.2]

/-- On a duplicate-free list the accumulated contribution is the single
reciprocal-rank summand at the candidate's 0-based position. -/
lemma sumRanks_nodup (k : ℕ) : ∀ (l : List Doc) (rank : ℕ) (j : String),
    (l.map Doc.id).Nodup →
    sumRanks k rank l j =
      if j ∈ l.map Doc.id then
        1 / ((k : ℚ) + (rank : ℚ) + (((l.map Doc.id).indexOf j : ℕ) : ℚ) + 1)
      else 0 := by
  intro l
  induction l with
  | nil => intro rank j _; simp [sumRanks]
  | cons d rest ih =>
    intro rank j hnd
    simp only [List.map_cons, List.nodup_cons] at hnd
    obtain ⟨hnotin, hnd'⟩ := hnd
    by_cases h : d.id = j
    · subst h
      rw [sumRanks, sumRanks_absent k rest (rank + 1) d.id hnotin]
      simp [List.indexOf_cons_self]
    · have hji : j ≠ d.id := fun hh => h hh.symm
      rw [sumRanks, ih (rank + 1) j hnd']
      by_cases hm : j ∈ rest.map Doc.id
      · simp only [h, if_false, ite_false, List.map_cons, List.mem_cons,
          hm, or_true, if_true, ite_true, hji, false_or, zero_add]
        rw [List.indexOf_cons_ne _ h]
        push_cast
        ring_nf
      · simp [h, hm, hji]

/-- C1: for duplicate-free input lists, each candidate's fused score is the
sum over every input list containing it of `1/(k + rank + 1)` at its 0-based
rank; and on `A = [a,b,c]`, `B = [c,a,d]` with `k = 60`, `top_k = 4`, fusion
ranks `a` and `c` above `b` and `d`. -/
theorem rrf_fused_score_spec :
    (∀ (vec kw : List Doc) (k : ℕ) (j : String),
      (vec.map Doc.id).Nodup → (kw.map Doc.id).Nodup →
      lookupScore (rrfScores vec kw k) j
        = rrfSpecContrib k vec j + rrfSpecContrib k kw j) ∧
    ((reciprocal_rank_fusion vecListA kwListB 4 60).map Doc.id
      = ["a", "c", "b", "d"]) := by
  constructor
  · intro vec kw k j hv hk
    unfold rrfScores
    rw [lookup_addRanksFrom, lookup_addRanksFrom,
      sumRanks_nodup k vec 0 j hv, sumRanks_nodup k kw 0 j hk]
    unfold rrfSpecContrib
    simp only [lookupScore, Nat.cast_zero, add_zero, zero_add]
  · norm_num +decide [reciprocal_rank_fusion, rrfScores, addRanksFrom,
      upsertScore, lookupScore, buildResultsMap, mapSet, mapSetIfAbsent,
      mapFind, sortDescBy, insertDescBy, vecListA, kwListB,
      docA, docB, docC, docD]

/-- Witness for C1 on the concrete acceptance lists at candidate `a`. -/
theorem rrf_fused_score_spec_witness :
    (vecListA.map Doc.id).Nodup ∧ (kwListB.map Doc.id).Nodup ∧
    lookupScore (rrfScores vecListA kwListB 60) "a"
      = rrfSpecContrib 60 vecListA "a" + rrfSpecContrib 60 kwListB "a" :=
  ⟨by decide, by decide,
    rrf_fused_score_spec.1 vecListA kwListB 60 "a" (by decide) (by decide)⟩

/-- Membership is preserved by `setAdd`. -/
lemma mem_setAdd_of_mem {acc : List String} {a : String} (x : String)
    (h : a ∈ acc) : a ∈ setAdd acc x := by
  unfold setAdd
  split <;> simp [h]

/-- The added element belongs to `setAdd`. -/
lemma mem_setAdd_self (acc : List String) (x : String) : x ∈ setAdd acc x := by
  unfold setAdd
  split
  · assumption
  · simp

/-- Membership is preserved by `setUpdate`. -/
lemma mem_setUpdate_of_mem {a : String} : ∀ (xs acc : List String),
    a ∈ acc → a ∈ setUpdate acc xs := by
  intro xs
  induction xs with
  | nil => intro acc h; exact h
  | cons y rest ih =>
    intro acc h
    exact ih (setAdd acc y) (mem_setAdd_of_mem y h)

/-- Every updated element belongs to `setUpdate`. -/
lemma mem_setUpdate_of_mem_arg {x : String} : ∀ (xs acc : List String),
    x ∈ xs → x ∈ setUpdate acc xs := by
  intro xs
  induction xs with
  | nil => intro acc h; cases h
  | cons y rest ih =>
    intro acc h
    rcases List.mem_cons.mp h with h | h
    · subst h
      exact mem_setUpdate_of_mem rest (setAdd acc x) (mem_setAdd_self acc x)
    · exact ih (setAdd acc y) h

/-- Membership is preserved by one expansion step. -/
lemma mem_expandStep_of_mem {a : String} (query : String)
    (acc : List String) (e : String × List String) (h : a ∈ acc) :
    a ∈ expandStep query acc e := by
  have hacc' :
      a ∈ (if pyContains query e.1 = true then setUpdate acc e.2 else acc) := by
    split
    · exact mem_setUpdate_of_mem e.2 acc h
    · exact h
  unfold expandStep
  rcases hsome : e.2.find?
      (fun syn => pyContains (pyLower query) (pyLower syn)) with _ | v
  · simpa [hsome] using hacc'
  · simp only [hsome]
    exact mem_setUpdate_of_mem e.2 _ (mem_setAdd_of_mem e.1 hacc')

/-- Membership is preserved by the whole expansion fold. -/
lemma mem_foldl_expandStep {a : String} (query : String) :
    ∀ (l : List (String × List String)) (acc : List String), a ∈ acc →
      a ∈ l.foldl (expandStep query) acc := by
  intro l
  induction l with
  | nil => intro acc h; exact h
  | cons e rest ih =>
    intro acc h
    exact ih (expandStep query acc e) (mem_expandStep_of_mem query acc e h)

/-- A case-insensitive synonym hit makes one expansion step add the canonical
term and all synonyms. -/
lemma expandStep_syn_hit (query : String) (acc : List String)
    (e : String × List String)
    (h : ∃ syn ∈ e.2, pyContains (pyLower query) (pyLower syn) = true) :
    e.1 ∈ expandStep query acc e ∧ ∀ s ∈ e.2, s ∈ expandStep query acc e := by
  have hfind : (e.2.find?
      (fun syn => pyContains (pyLower query) (pyLower syn))).isSome := by
    rw [List.find?_isSome]
    exact h
  unfold expandStep
  rcases hsome : e.2.find?
      (fun syn => pyContains (pyLower query) (pyLower syn)) with _ | v
  · rw [hsome] at hfind; simp at hfind
  · simp only [hsome]
    constructor
    · exact mem_setUpdate_of_mem e.2 _ (mem_setAdd_self _ e.1)
    · intro s hs
      exact mem_setUpdate_of_mem_arg e.2 _ hs

/-- A case-sensitive canonical-term hit makes one expansion step add all
synonyms. -/
lemma expandStep_term_hit (query : String) (acc : List String)
    (e : String × List String) (h : pyContains query e.1 = true) :
    ∀ s ∈ e.2, s ∈ expandStep query acc e := by
  intro s hs
  have hacc' :
      s ∈ (if pyContains query e.1 = true then setUpdate acc e.2 else acc) := by
    rw [h]
    simp only [if_true, ite_true]
    exact mem_setUpdate_of_mem_arg e.2 acc hs
  unfold expandStep
  rcases hsome : e.2.find?
      (fun syn => pyContains (pyLower query) (pyLower syn)) with _ | v
  · simpa [hsome] using hacc'
  · simp only [hsome]
    exact mem_setUpdate_of_mem e.2 _ (mem_setAdd_of_mem e.1 hacc')

/-- Fold-level version of the two hit lemmas, for any table entry. -/
lemma foldl_expandStep_entry (query : String) :
    ∀ (l : List (String × List String)) (acc : List String)
      (e : String × List String), e ∈ l →
    ((∃ syn ∈ e.2, pyContains (pyLower query) (pyLower syn) = true) →
      e.1 ∈ l.foldl (expandStep query) acc ∧
        ∀ s ∈ e.2, s ∈ l.foldl (expandStep query) acc) ∧
    (pyContains query e.1 = true →
      ∀ s ∈ e.2, s ∈ l.foldl (expandStep query) acc) := by
  intro l
  induction l with
  | nil => intro acc e he; cases he
  | cons f rest ih =>
    intro acc e he
    rcases List.mem_cons.mp he with he | he
    · subst he
      constructor
      · intro hsyn
        have h1 := expandStep_syn_hit query acc e hsyn
        exact ⟨mem_foldl_expandStep query rest _ h1.1,
          fun s hs => mem_foldl_expandStep query rest _ (h1.2 s hs)⟩
      · intro hterm s hs
        exact mem_foldl_expandStep query rest _
          (expandStep_term_hit query acc e hterm s hs)
    · exact ih (expandStep query acc f) e he

/-- The original query is always an element of its own expansion set. -/
lemma query_mem_expandTerms (query : String) : query ∈ expandTerms query :=
  mem_foldl_expandStep query RAIL_TERMINOLOGY [query] (by simp)

/-- C7 counterexample: the query `"mr"` contains the canonical term `"MR"`
case-insensitively, yet its expansion is just `["mr"]`: it contains neither
the canonical term nor any of its synonyms (canonical-term matching is
case-sensitive in the code). -/
theorem expand_query_case_counterexample :
    pyContains (pyLower "mr") (pyLower "MR") = true ∧
    ("MR", ["main reservoir", "主風缸", "總風缸"]) ∈ RAIL_TERMINOLOGY ∧
    expandTerms "mr" = ["mr"] ∧
    "MR" ∉ expandTerms "mr" ∧
    "main reservoir" ∉ expandTerms "mr" ∧
    pyContains (expand_query "mr") "main reservoir" = false ∧
    pyContains (expand_query "mr") "MR" = false := by
  decide

/-- C7 (amended): synonym matching is case-insensitive and adds the canonical
term plus all synonyms; canonical-term matching is case-sensitive and adds
all synonyms (the canonical term itself remains present only inside the
original query substring). -/
theorem expand_query_symmetric_matching (query term : String)
    (syns : List String) (hmem : (term, syns) ∈ RAIL_TERMINOLOGY) :
    ((∃ syn ∈ syns, pyContains (pyLower query) (pyLower syn) = true) →
      query ∈ expandTerms query ∧ term ∈ expandTerms query ∧
        ∀ s ∈ syns, s ∈ expandTerms query) ∧
    (pyContains query term = true →
      query ∈ expandTerms query ∧ ∀ s ∈ syns, s ∈ expandTerms query) := by
  have h := foldl_expandStep_entry query RAIL_TERMINOLOGY [query]
    (term, syns) hmem
  constructor
  · intro hsyn
    exact ⟨query_mem_expandTerms query, (h.1 hsyn).1, (h.1 hsyn).2⟩
  · intro hterm
    exact ⟨query_mem_expandTerms query, h.2 hterm⟩

/-- Witness for the amended C7: the query `"台車"` (a synonym) pulls in the
canonical term `"轉向架"` and all its synonyms. -/
theorem expand_query_symmetric_matching_witness :
    (("轉向架", ["bogie", "台車", "走行部", "轉向架總成"]) ∈ RAIL_TERMINOLOGY) ∧
    ("台車" ∈ expandTerms "台車" ∧ "轉向架" ∈ expandTerms "台車" ∧
      ∀ s ∈ ["bogie", "台車", "走行部", "轉向架總成"], s ∈ expandTerms "台車") :=
  ⟨by decide,
    (expand_query_symmetric_matching "台車" "轉向架"
      ["bogie", "台車", "走行部", "轉向架總成"] (by decide)).1
      ⟨"台車", by decide⟩⟩

/-- The executable infix test coincides with `List.IsInfix`. -/
lemma listInfix_iff (needle : List Char) : ∀ haystack : List Char,
    listInfix needle haystack = true ↔ needle <:+: haystack := by
  intro haystack
  induction haystack with
  | nil => simp [listInfix, List.isEmpty_iff]
  | cons c rest ih =>
    simp [listInfix, ih, List.infix_cons_iff]

/-- Every element of a list is a substring of its space-join. -/
lemma mem_joinSp_infix {x : String} : ∀ l : List String,
    x ∈ l → x.data <:+: (joinSp l).data := by
  intro l
  induction l with
  | nil => intro h; cases h
  | cons y rest ih =>
    intro h
    rcases List.mem_cons.mp h with h | h
    · subst h
      cases rest with
      | nil => exact List.infix_rfl
      | cons z t =>
        show x.data <:+: (x ++ " " ++ joinSp (z :: t)).data
        simp only [String.data_append]
        exact ((List.prefix_append x.data _).trans
          (List.prefix_append _ _)).isInfix
    · cases rest with
      | nil => cases h
      | cons z t =>
        have hx := ih h
        show x.data <:+: (y ++ " " ++ joinSp (z :: t)).data
        simp only [String.data_append]
        rw [List.append_assoc]
        exact hx.trans
          (((List.suffix_append (" ".data) (joinSp (z :: t)).data).trans
            (List.suffix_append y.data _)).isInfix)

/-- C8 counterexample: expanding the expansion of `"軔缸"` adds the brand-new
term `"軔機"` (reachable only through the substring `"煞車"` of the synonym
`"煞車缸"`), so the expansion term set is not a fixed point of a second
pass. -/
theorem expand_query_not_idempotent_counterexample :
    ("軔機" ∈ expandTerms (expand_query "軔缸")) ∧
    ("軔機" ∉ expandTerms "軔缸") ∧
    pyContains (expand_query "軔缸") "軔機" = false := by
  decide

/-- C8 (amended): a second expansion pass retains the whole first expansion —
the expanded string itself is an element of its own re-expansion, and every
first-pass term stays a substring of the expanded string — but the term set
need not be a fixed point: a second pass can add new terms. -/
theorem expand_query_reexpansion (query : String) :
    (expand_query query ∈ expandTerms (expand_query query)) ∧
    (∀ t ∈ expandTerms query, pyContains (expand_query query) t = true) := by
  constructor
  · exact query_mem_expandTerms (expand_query query)
  · intro t ht
    unfold pyContains
    rw [listInfix_iff]
    exact mem_joinSp_infix (expandTerms query) ht

/-- Witness for the amended C8 at the concrete query `"軔缸"`. -/
theorem expand_query_reexpansion_witness :
    ("煞車缸" ∈ expandTerms "軔缸") ∧
    pyContains (expand_query "軔缸") "煞車缸" = true :=
  ⟨by decide, (expand_query_reexpansion "軔缸").2 "煞車缸" (by decide)⟩

end KM
